import Mathlib

/-!
Shallow embedding of the nfs4_acl_tools crate (src/lib.rs): an NFSv4 ACL
decoder for the line-oriented output of the nfs4_getfacl utility, plus the
group_id_aces filter. Rust strings are modelled as Lean String / List Char,
the bitflags values as Nat with explicit bitwise operations, Rust panics
(unwrap on None, index out of bounds, the unreachable! macro) as an explicit
crash outcome, and the println! diagnostics as no-ops (they carry no
caller-visible signal).
-/

/-- The AceType enum of src/lib.rs: one of Allow, Deny, Audit, Alarm. -/
inductive AceType where
  | Allow : AceType
  | Deny : AceType
  | Audit : AceType
  | Alarm : AceType
deriving DecidableEq, Repr

namespace AceFlags

/-- AceFlags bit GROUP = 0b00000001 (bitflags over u8). -/
def GROUP : Nat := 1

/-- AceFlags bit DIRECTORY_INHERIT = 0b00000010. -/
def DIRECTORY_INHERIT : Nat := 2

/-- AceFlags bit FILE_INHERIT = 0b00000100. -/
def FILE_INHERIT : Nat := 4

/-- AceFlags bit NO_PROPAGATE_INHERIT = 0b00001000. -/
def NO_PROPAGATE_INHERIT : Nat := 8

/-- AceFlags bit INHERIT_ONLY = 0b00010000. -/
def INHERIT_ONLY : Nat := 16

/-- AceFlags bit SUCCESSFUL_ACCESS = 0b00100000. -/
def SUCCESSFUL_ACCESS : Nat := 32

/-- AceFlags bit FAILED_ACCESS = 0b01000000. -/
def FAILED_ACCESS : Nat := 64

/-- The union of all defined AceFlags bits (bitflags all()). -/
def ALL : Nat := 127

end AceFlags

namespace AcePermissions

/-- AcePermissions bit READ_DATA = 0b0000000000000001 (bitflags over u16). -/
def READ_DATA : Nat := 1

/-- AcePermissions bit WRITE_DATA. -/
def WRITE_DATA : Nat := 2

/-- AcePermissions bit APPEND_DATA. -/
def APPEND_DATA : Nat := 4

/-- AcePermissions bit EXECUTE. -/
def EXECUTE : Nat := 8

/-- AcePermissions bit DELETE. -/
def DELETE : Nat := 16

/-- AcePermissions bit DELETE_CHILD. -/
def DELETE_CHILD : Nat := 32

/-- AcePermissions bit READ_ATTRIBUTES. -/
def READ_ATTRIBUTES : Nat := 64

/-- AcePermissions bit WRITE_ATTRIBUTES. -/
def WRITE_ATTRIBUTES : Nat := 128

/-- AcePermissions bit READ_NAMED_ATTRIBUTES. -/
def READ_NAMED_ATTRIBUTES : Nat := 256

/-- AcePermissions bit WRITE_NAMED_ATTRIBUTES. -/
def WRITE_NAMED_ATTRIBUTES : Nat := 512

/-- AcePermissions bit READ_ACL. -/
def READ_ACL : Nat := 1024

/-- AcePermissions bit WRITE_ACL. -/
def WRITE_ACL : Nat := 2048

/-- AcePermissions bit WRITE_OWNER. -/
def WRITE_OWNER : Nat := 4096

/-- AcePermissions bit SYNCHRONIZE = 0b0010000000000000. -/
def SYNCHRONIZE : Nat := 8192

/-- The union of all defined AcePermissions bits (bitflags all()). -/
def ALL : Nat := 16383

end AcePermissions

/-- The bitflags contains test: f.contains(v) is f & v == v. -/
def containsBits (f v : Nat) : Bool := f &&& v = v

/-- One Ace of src/lib.rs. ace_flags and ace_permissions hold the numeric
bitflags value (u8 / u16 subset); ace_principals holds the AcePrincipals
string verbatim. -/
structure Ace where
  ace_type : AceType
  ace_flags : Nat
  ace_principals : String
  ace_permissions : Nat
deriving DecidableEq, Repr

/-- The Acl struct of src/lib.rs: an ordered sequence of Ace. -/
structure Acl where
  aces : List Ace
deriving DecidableEq, Repr

/-- The match on the trailing type character at lines 100-106 of src/lib.rs;
none models the unreachable! arm (a process abort). -/
def charToAceType (c : Char) : Option AceType :=
  match c with
  | 'A' => some AceType.Allow
  | 'D' => some AceType.Deny
  | 'U' => some AceType.Audit
  | 'L' => some AceType.Alarm
  | _ => none

/-- The per-character flag match at lines 110-122 of src/lib.rs; none is the
arm that prints Invalid flag and breaks. -/
def charFlag (c : Char) : Option Nat :=
  match c with
  | 'g' => some AceFlags.GROUP
  | 'd' => some AceFlags.DIRECTORY_INHERIT
  | 'f' => some AceFlags.FILE_INHERIT
  | 'n' => some AceFlags.NO_PROPAGATE_INHERIT
  | 'i' => some AceFlags.INHERIT_ONLY
  | 'S' => some AceFlags.SUCCESSFUL_ACCESS
  | 'F' => some AceFlags.FAILED_ACCESS
  | _ => none

/-- The per-character permission match at lines 129-148 of src/lib.rs; none is
the arm that prints Invalid permission and breaks. -/
def charPerm (c : Char) : Option Nat :=
  match c with
  | 'r' => some AcePermissions.READ_DATA
  | 'w' => some AcePermissions.WRITE_DATA
  | 'a' => some AcePermissions.APPEND_DATA
  | 'x' => some AcePermissions.EXECUTE
  | 'd' => some AcePermissions.DELETE
  | 'D' => some AcePermissions.DELETE_CHILD
  | 't' => some AcePermissions.READ_ATTRIBUTES
  | 'T' => some AcePermissions.WRITE_ATTRIBUTES
  | 'n' => some AcePermissions.READ_NAMED_ATTRIBUTES
  | 'N' => some AcePermissions.WRITE_NAMED_ATTRIBUTES
  | 'c' => some AcePermissions.READ_ACL
  | 'C' => some AcePermissions.WRITE_ACL
  | 'o' => some AcePermissions.WRITE_OWNER
  | 'y' => some AcePermissions.SYNCHRONIZE
  | _ => none

/-- The character-accumulation loops at lines 108-123 and 127-149 of
src/lib.rs: fold the field left-to-right, OR-ing in the bit of each mapped
character; on an unmapped character the loop breaks, returning the value
accumulated so far (the println is caller-invisible). -/
def decodeBitsLoop (charVal : Char → Option Nat) : Nat → List Char → Nat
  | acc, [] => acc
  | acc, c :: rest =>
    match charVal c with
    | some v => decodeBitsLoop charVal (acc ||| v) rest
    | none => acc

/-- Rust str::split(the colon) as used at line 90 of src/lib.rs: split a
character list at every colon; the result always has at least one (possibly
empty) field, and a string with no colon is a single field. -/
def splitOnColon : List Char → List (List Char)
  | [] => [[]]
  | c :: rest =>
    match splitOnColon rest with
    | [] => [[]]
    | f :: fs => if c = ':' then [] :: f :: fs else (c :: f) :: fs

/-- Outcome of decoding one line of nfs4_getfacl output. skip models the
continue at line 87 of src/lib.rs, crash models a Rust panic (unwrap on an
empty first field at line 95, an out-of-bounds index at lines 96-98, or the
unreachable! at line 105), entry is a decoded Ace. -/
inductive LineResult where
  | skip : LineResult
  | crash : LineResult
  | entry : Ace → LineResult
deriving DecidableEq, Repr

/-- The body of the per-line loop of Acl::from_path after the split at line 90
of src/lib.rs, taking the colon-separated fields. The length-4 check at lines
91-93 only prints; the code then reads the last character of field 0 (unwrap:
crash when field 0 is empty), indexes fields 1..3 (crash when fewer than 4
fields), matches the type character (crash via unreachable! when it is not one
of A, D, U, L), and otherwise builds the Ace from the first four fields. -/
def decodeParts (parts : List (List Char)) : LineResult :=
  match (parts.headD []).getLast? with
  | none => LineResult.crash
  | some tc =>
    match parts.get? 1, parts.get? 2, parts.get? 3 with
    | some fl, some pr, some pe =>
      match charToAceType tc with
      | none => LineResult.crash
      | some ty =>
        LineResult.entry
          { ace_type := ty
            ace_flags := decodeBitsLoop charFlag 0 fl
            ace_principals := String.mk pr
            ace_permissions := decodeBitsLoop charPerm 0 pe }
    | _, _, _ => LineResult.crash

/-- One iteration of the line loop at lines 85-158 of src/lib.rs: empty lines
and lines starting with the comment marker are skipped, the rest are split on
colons and decoded. -/
def decodeLineCh (l : List Char) : LineResult :=
  if l = [] then LineResult.skip
  else if l.head? = some '#' then LineResult.skip
  else decodeParts (splitOnColon l)

/-- Outcome of the whole decode: crashed when some line panics the process,
otherwise the Acl built in input order. -/
inductive ParseOutcome where
  | crashed : ParseOutcome
  | ok : Acl → ParseOutcome
deriving DecidableEq, Repr

/-- The loop of Acl::from_path over the line list (lines 85-158 of
src/lib.rs), already given the lines of the utility output: each line is
skipped, crashes the process, or appends its Ace to the result in order. -/
def parseLinesCh : List (List Char) → ParseOutcome
  | [] => ParseOutcome.ok { aces := [] }
  | l :: rest =>
    match decodeLineCh l with
    | LineResult.skip => parseLinesCh rest
    | LineResult.crash => ParseOutcome.crashed
    | LineResult.entry a =>
      match parseLinesCh rest with
      | ParseOutcome.ok acl => ParseOutcome.ok { aces := a :: acl.aces }
      | ParseOutcome.crashed => ParseOutcome.crashed

/-- The text-decoding core of Acl::from_path (src/lib.rs lines 83-161), over
the already-split lines of the nfs4_getfacl standard output. -/
def parseAcl (lines : List String) : ParseOutcome :=
  parseLinesCh (lines.map String.toList)

/-- One step of Rust u16 from_str digit accumulation: acc * 10 + digit. -/
def stepDigit (acc : Nat) (c : Char) : Nat := acc * 10 + (c.toNat - 48)

/-- The digit-folding core of Rust u16::from_str as called at line 170 of
src/lib.rs: each character must be an ASCII digit, and the checked
multiply-add fails (overflow) as soon as the accumulator would reach 2^16. -/
def digitsToU16core : Nat → List Char → Option Nat
  | acc, [] => some acc
  | acc, c :: rest =>
    if c.isDigit then
      if stepDigit acc c < 65536 then digitsToU16core (stepDigit acc c) rest
      else none
    else none

/-- Rust str::parse::<u16> as called at line 170 of src/lib.rs, over the
character list: an optional leading plus sign followed by at least one ASCII
digit, value below 2^16; anything else (empty string, minus sign, non-digit,
overflow) is an error. -/
def parseU16Ch : List Char → Option Nat
  | [] => none
  | c :: rest =>
    if c = '+' then
      if rest.isEmpty then none else digitsToU16core 0 rest
    else digitsToU16core 0 (c :: rest)

/-- Rust str::parse::<u16> on a string. -/
def parseU16 (s : String) : Option Nat := parseU16Ch s.toList

/-- Acl::group_id_aces (src/lib.rs lines 165-176): the entries whose
principal string parses as a u16 and whose flags contain GROUP, in order. -/
def Acl.group_id_aces (acl : Acl) : List Ace :=
  acl.aces.filter fun ace =>
    (parseU16 ace.ace_principals).isSome && containsBits ace.ace_flags AceFlags.GROUP

/-- Spec-side predicate, following the words of section 4.3 of the spec for
comparison with group_id_aces: the principal "parses as a non-negative
integer", i.e. an optional leading plus sign followed by at least one decimal
digit, with no bound on the value. -/
def specNonNegIntCh : List Char → Bool
  | [] => false
  | c :: rest =>
    if c = '+' then !rest.isEmpty && rest.all Char.isDigit
    else (c :: rest).all Char.isDigit

/-- Spec-side predicate on a string. -/
def specNonNegInt (s : String) : Bool := specNonNegIntCh s.toList

/-- The numeric value of a decimal digit string. -/
def natOfDigits (l : List Char) : Nat := l.foldl stepDigit 0

/-- The non-negative integer a spec-side principal denotes (0 when the string
is not of that shape). -/
def specNonNegValCh : List Char → Nat
  | [] => 0
  | c :: rest => if c = '+' then natOfDigits rest else natOfDigits (c :: rest)

/-- The non-negative integer value of a string principal. -/
def specNonNegVal (s : String) : Nat := specNonNegValCh s.toList

/-- Modelled from the bitflags crate as instantiated for AceFlags (u8) and
used by impl_serde_for_bitflags at line 31 of src/lib.rs: deserialization
calls from_bits on the stored numeric value, which rejects any value with a
bit outside the defined set (bits & !all() must be zero, here the u8
complement of ALL = 127). -/
def AceFlags.fromBits (n : Nat) : Option Nat :=
  if n &&& (255 ^^^ AceFlags.ALL) = 0 then some n else none

/-- Modelled from the bitflags crate as instantiated for AcePermissions (u16)
and used by impl_serde_for_bitflags at line 56 of src/lib.rs: from_bits on the
stored u16, rejecting any bit outside ALL = 16383 (the u16 complement). -/
def AcePermissions.fromBits (n : Nat) : Option Nat :=
  if n &&& (65535 ^^^ AcePermissions.ALL) = 0 then some n else none

/-- The model's bitflags bits(): the underlying numeric value of a bit set,
the identity here since bit sets are carried as their numeric value. -/
def bitsOf (n : Nat) : Nat := n

lemma decodeBitsLoop_testBit (f : Char → Option Nat) (l : List Char) :
    ∀ acc : Nat, (∀ c ∈ l, (f c).isSome) → ∀ i : Nat,
      (decodeBitsLoop f acc l).testBit i
        = (acc.testBit i || l.any fun c => ((f c).getD 0).testBit i) := by
  induction l with
  | nil => intro acc _ i; simp [decodeBitsLoop]
  | cons c rest ih =>
    intro acc h i
    obtain ⟨v, hv⟩ := Option.isSome_iff_exists.mp (h c (List.mem_cons_self c rest))
    have hrest : ∀ x ∈ rest, (f x).isSome := fun x hx => h x (List.mem_cons_of_mem c hx)
    simp only [decodeBitsLoop, hv]
    rw [ih (acc ||| v) hrest i]
    simp [Nat.testBit_or, hv, Bool.or_assoc]

lemma testBit_high_false (n k i : Nat) (hn : n < 2 ^ k) (hi : k ≤ i) :
    n.testBit i = false :=
  Nat.testBit_lt_two_pow (lt_of_lt_of_le hn (Nat.pow_le_pow_right (by omega) hi))

lemma le_foldl_stepDigit (l : List Char) : ∀ acc : Nat, acc ≤ l.foldl stepDigit acc := by
  induction l with
  | nil => intro acc; exact Nat.le_refl acc
  | cons c rest ih =>
    intro acc
    have h1 : acc ≤ stepDigit acc c := by unfold stepDigit; omega
    exact le_trans h1 (ih (stepDigit acc c))

lemma digitsToU16core_isSome (l : List Char) :
    ∀ acc : Nat, acc < 65536 →
      (digitsToU16core acc l).isSome
        = (l.all Char.isDigit && decide (l.foldl stepDigit acc < 65536)) := by
  induction l with
  | nil => intro acc hacc; simp [digitsToU16core, hacc]
  | cons c rest ih =>
    intro acc hacc
    by_cases hd : c.isDigit
    · by_cases hlt : stepDigit acc c < 65536
      · simp only [digitsToU16core, hd, if_true, hlt]
        rw [ih (stepDigit acc c) hlt]
        simp [hd]
      · have hge : 65536 ≤ rest.foldl stepDigit (stepDigit acc c) :=
          le_trans (Nat.le_of_not_lt hlt) (le_foldl_stepDigit rest (stepDigit acc c))
        simp only [digitsToU16core, hd, if_true, hlt, if_false]
        simp [hd, Nat.not_lt.mpr hge]
    · simp [digitsToU16core, hd]

lemma parseU16Ch_isSome (l : List Char) :
    (parseU16Ch l).isSome
      = (specNonNegIntCh l && decide (specNonNegValCh l < 65536)) := by
  cases l with
  | nil => simp [parseU16Ch, specNonNegIntCh, specNonNegValCh]
  | cons c rest =>
    by_cases hc : c = '+'
    · subst hc
      cases rest with
      | nil => simp [parseU16Ch, specNonNegIntCh, specNonNegValCh]
      | cons d ds =>
        have h := digitsToU16core_isSome (d :: ds) 0 (by omega)
        simp only [parseU16Ch, specNonNegIntCh, specNonNegValCh, if_true,
          List.isEmpty_cons, natOfDigits]
        simp [h, natOfDigits]
    · simp only [parseU16Ch, specNonNegIntCh, specNonNegValCh, hc, if_false, natOfDigits]
      exact digitsToU16core_isSome (c :: rest) 0 (by omega)

lemma parseU16_isSome (s : String) :
    (parseU16 s).isSome
      = (specNonNegInt s && decide (specNonNegVal s < 65536)) :=
  parseU16Ch_isSome s.toList

lemma parseLinesCh_ok (ls : List (List Char)) :
    ∀ acl : Acl, parseLinesCh ls = ParseOutcome.ok acl →
      acl.aces = ls.filterMap fun l =>
        match decodeLineCh l with
        | LineResult.entry a => some a
        | _ => none := by
  induction ls with
  | nil =>
    intro acl h
    simp only [parseLinesCh] at h
    injection h with h2
    rw [← h2]
    simp
  | cons l rest ih =>
    intro acl h
    cases hd : decodeLineCh l with
    | skip =>
      simp only [parseLinesCh, hd] at h
      rw [List.filterMap_cons]
      simp only [hd]
      exact ih acl h
    | crash =>
      simp only [parseLinesCh, hd] at h
      exact ParseOutcome.noConfusion h
    | entry a =>
      simp only [parseLinesCh, hd] at h
      cases hr : parseLinesCh rest with
      | crashed => rw [hr] at h; simp at h
      | ok acl2 =>
        rw [hr] at h
        injection h with h2
        rw [← h2]
        rw [List.filterMap_cons]
        simp only [hd]
        rw [← ih acl2 hr]

/-- Claim C1: a non-comment, non-empty line that does not split into exactly
4 colon-separated fields is claimed to produce a MalformedLine error without
crashing. The code instead prints a diagnostic and indexes the missing
fields, panicking: on the 3-field line A:g:OWNER@ the whole decode crashes
instead of returning any result. -/
theorem three_field_line_crashes :
    (splitOnColon ("A:g:OWNER@".toList)).length = 3
      ∧ parseAcl ["A:g:OWNER@"] = ParseOutcome.crashed := by decide

/-- Claim C2: a type-field whose trailing character is a letter outside
A, D, U, L is claimed to be a recoverable per-line decode error. The code
instead reaches the unreachable! macro and aborts the process: on the line
X::OWNER@:r the whole decode crashes. -/
theorem unknown_type_char_crashes :
    charToAceType 'X' = none
      ∧ parseAcl ["X::OWNER@:r"] = ParseOutcome.crashed := by decide

/-- Claim C3: an unrecognized flag or permission character is claimed to
yield a caller-visible decode error for the line. The code does stop
accumulating at the bad character (the f after the z contributes nothing),
but it only prints a diagnostic and accepts the partially-accumulated Ace
into the Ok result, with no caller-visible error. -/
theorem bad_flag_char_accepted_without_error :
    parseAcl ["A:gzf:OWNER@:r"] = ParseOutcome.ok
      { aces := [{ ace_type := AceType.Allow
                   ace_flags := AceFlags.GROUP
                   ace_principals := "OWNER@"
                   ace_permissions := AcePermissions.READ_DATA }] } := by decide

/-- Claim C4, counterexample: group_id_aces is claimed to keep exactly the
entries whose principal parses as a non-negative integer and whose flags
contain GROUP. The entry with principal 65536 and the GROUP flag satisfies
the claimed filter, but the code's parse into u16 overflows, so the code
excludes it. -/
theorem group_id_aces_not_all_numeric :
    Acl.group_id_aces
        { aces := [{ ace_type := AceType.Allow, ace_flags := AceFlags.GROUP,
                     ace_principals := "65536", ace_permissions := 0 }] }
      ≠ List.filter
          (fun a => specNonNegInt a.ace_principals
            && containsBits a.ace_flags AceFlags.GROUP)
          [{ ace_type := AceType.Allow, ace_flags := AceFlags.GROUP,
             ace_principals := "65536", ace_permissions := 0 }] := by decide

/-- Claim C4, amended: group_id_aces returns exactly the subsequence of
entries, in original order, whose principal parses as a non-negative integer
below 2^16 (the u16 range) and whose flags contain the GROUP bit; an empty
result, never an error, when no entry matches. -/
theorem group_id_aces_numeric_group_filter (acl : Acl) :
    acl.group_id_aces = acl.aces.filter fun a =>
      specNonNegInt a.ace_principals
        && decide (specNonNegVal a.ace_principals < 65536)
        && containsBits a.ace_flags AceFlags.GROUP := by
  unfold Acl.group_id_aces
  refine List.filter_congr ?_
  intro a _
  rw [parseU16_isSome]

/-- Claim C5: decoding a string made only of valid flag letters (resp. valid
permission letters) yields exactly the union of the bits of the letters
present: the result's bits are characterized by letter membership alone, and
two such strings with the same letters - in any order, with any duplication -
decode to the same value. -/
theorem letters_decode_to_exact_union :
    (∀ l : List Char, (∀ c ∈ l, (charFlag c).isSome) → ∀ i : Nat,
        (decodeBitsLoop charFlag 0 l).testBit i
          = (l.any fun c => ((charFlag c).getD 0).testBit i))
    ∧ (∀ l : List Char, (∀ c ∈ l, (charPerm c).isSome) → ∀ i : Nat,
        (decodeBitsLoop charPerm 0 l).testBit i
          = (l.any fun c => ((charPerm c).getD 0).testBit i))
    ∧ (∀ l1 l2 : List Char, (∀ c ∈ l1, (charFlag c).isSome) →
        (∀ c ∈ l2, (charFlag c).isSome) → (∀ c : Char, c ∈ l1 ↔ c ∈ l2) →
        decodeBitsLoop charFlag 0 l1 = decodeBitsLoop charFlag 0 l2)
    ∧ (∀ l1 l2 : List Char, (∀ c ∈ l1, (charPerm c).isSome) →
        (∀ c ∈ l2, (charPerm c).isSome) → (∀ c : Char, c ∈ l1 ↔ c ∈ l2) →
        decodeBitsLoop charPerm 0 l1 = decodeBitsLoop charPerm 0 l2) := by
  have key : ∀ (f : Char → Option Nat) (l : List Char),
      (∀ c ∈ l, (f c).isSome) → ∀ i : Nat,
      (decodeBitsLoop f 0 l).testBit i
        = (l.any fun c => ((f c).getD 0).testBit i) := by
    intro f l h i
    rw [decodeBitsLoop_testBit f l 0 h i, Nat.zero_testBit, Bool.false_or]
  have inv : ∀ (f : Char → Option Nat) (l1 l2 : List Char),
      (∀ c ∈ l1, (f c).isSome) → (∀ c ∈ l2, (f c).isSome) →
      (∀ c : Char, c ∈ l1 ↔ c ∈ l2) →
      decodeBitsLoop f 0 l1 = decodeBitsLoop f 0 l2 := by
    intro f l1 l2 h1 h2 hmem
    apply Nat.eq_of_testBit_eq
    intro i
    rw [key f l1 h1 i, key f l2 h2 i]
    rw [Bool.eq_iff_iff]
    simp only [List.any_eq_true]
    constructor
    · rintro ⟨c, hc, hp⟩
      exact ⟨c, (hmem c).mp hc, hp⟩
    · rintro ⟨c, hc, hp⟩
      exact ⟨c, (hmem c).mpr hc, hp⟩
  exact ⟨fun l h i => key charFlag l h i,
         fun l h i => key charPerm l h i,
         fun l1 l2 h1 h2 hm => inv charFlag l1 l2 h1 h2 hm,
         fun l1 l2 h1 h2 hm => inv charPerm l1 l2 h1 h2 hm⟩

/-- Witness for claim C5: concrete instances, the union characterization on
the flag string ggd at bit 1, and order/duplication independence of gd
against dgg. -/
theorem letters_decode_to_exact_union_witness :
    ((decodeBitsLoop charFlag 0 ['g', 'g', 'd']).testBit 1
      = (['g', 'g', 'd'].any fun c => ((charFlag c).getD 0).testBit 1))
    ∧ decodeBitsLoop charFlag 0 ['g', 'd'] = decodeBitsLoop charFlag 0 ['d', 'g', 'g'] :=
  ⟨letters_decode_to_exact_union.1 ['g', 'g', 'd'] (by decide) 1,
   letters_decode_to_exact_union.2.2.1 ['g', 'd'] ['d', 'g', 'g'] (by decide) (by decide)
     (by intro c; simp only [List.mem_cons, List.not_mem_nil, or_false]; tauto)⟩

/-- Claim C6: for every representable AceFlags value (subset of the 7 bits,
as u8) and AcePermissions value (subset of the 14 bits, as u16), encoding to
the underlying numeric form and decoding back via from_bits yields an equal
value. -/
theorem bitset_numeric_roundtrip :
    (∀ f : Nat, f < 128 → AceFlags.fromBits (bitsOf f) = some f)
    ∧ (∀ p : Nat, p < 16384 → AcePermissions.fromBits (bitsOf p) = some p) := by
  constructor
  · intro f hf
    have hf2 : f < 2 ^ 7 := by simpa using hf
    have hand : f &&& (255 ^^^ AceFlags.ALL) = 0 := by
      apply Nat.eq_of_testBit_eq
      intro i
      rw [Nat.testBit_and, Nat.zero_testBit]
      by_cases hi : 7 ≤ i
      · rw [testBit_high_false f 7 i hf2 hi, Bool.false_and]
      · have hi7 : i < 7 := Nat.lt_of_not_le hi
        have hbit : (255 ^^^ AceFlags.ALL).testBit i = false := by
          interval_cases i <;> decide
        rw [hbit, Bool.and_false]
    simp [AceFlags.fromBits, bitsOf, hand]
  · intro p hp
    have hp2 : p < 2 ^ 14 := by simpa using hp
    have hand : p &&& (65535 ^^^ AcePermissions.ALL) = 0 := by
      apply Nat.eq_of_testBit_eq
      intro i
      rw [Nat.testBit_and, Nat.zero_testBit]
      by_cases hi : 14 ≤ i
      · rw [testBit_high_false p 14 i hp2 hi, Bool.false_and]
      · have hi14 : i < 14 := Nat.lt_of_not_le hi
        have hbit : (65535 ^^^ AcePermissions.ALL).testBit i = false := by
          interval_cases i <;> decide
        rw [hbit, Bool.and_false]
    simp [AcePermissions.fromBits, bitsOf, hand]

/-- Witness for claim C6: the round trip at the concrete values 93 (flags)
and 16383 (permissions). -/
theorem bitset_numeric_roundtrip_witness :
    AceFlags.fromBits (bitsOf 93) = some 93
      ∧ AcePermissions.fromBits (bitsOf 16383) = some 16383 :=
  ⟨bitset_numeric_roundtrip.1 93 (by decide),
   bitset_numeric_roundtrip.2 16383 (by decide)⟩

/-- Claim C7: whenever the decode returns a result, its Aces are exactly the
entry lines of the input in their original order - blank lines and lines
starting with the comment marker contribute nothing, every other line
contributes its Ace in place, and nothing is reordered or deduplicated
(the output is the order-preserving filterMap of the input lines). -/
theorem decode_preserves_line_order (lines : List String) (acl : Acl)
    (h : parseAcl lines = ParseOutcome.ok acl) :
    acl.aces = lines.filterMap fun l =>
      match decodeLineCh l.toList with
      | LineResult.entry a => some a
      | _ => none := by
  have h2 := parseLinesCh_ok (lines.map String.toList) acl h
  rw [h2, List.filterMap_map]
  rfl

/-- Witness for claim C7: a multi-line input with interleaved comment and
blank lines, including a duplicated entry line, decodes to its entry lines
in order. -/
theorem decode_preserves_line_order_witness :
    ({ aces := [{ ace_type := AceType.Allow, ace_flags := 0,
                  ace_principals := "OWNER@", ace_permissions := 1 },
                { ace_type := AceType.Deny, ace_flags := 1,
                  ace_principals := "7", ace_permissions := 2 },
                { ace_type := AceType.Deny, ace_flags := 1,
                  ace_principals := "7", ace_permissions := 2 }] } : Acl).aces
      = (["# file: x", "", "A::OWNER@:r", "D:g:7:w", "", "D:g:7:w"].filterMap fun l =>
          match decodeLineCh l.toList with
          | LineResult.entry a => some a
          | _ => none) :=
  decode_preserves_line_order ["# file: x", "", "A::OWNER@:r", "D:g:7:w", "", "D:g:7:w"]
    _ (by decide)

/-- Claim C8: the single line A::OWNER@:rwx decodes to exactly one Ace with
type Allow, empty flags, principal OWNER@, and permissions exactly
READ_DATA, WRITE_DATA and EXECUTE. -/
theorem owner_rwx_line_decodes :
    parseAcl ["A::OWNER@:rwx"] = ParseOutcome.ok
      { aces := [{ ace_type := AceType.Allow
                   ace_flags := 0
                   ace_principals := "OWNER@"
                   ace_permissions := AcePermissions.READ_DATA
                     ||| AcePermissions.WRITE_DATA
                     ||| AcePermissions.EXECUTE }] } := by decide

/-- Claim C9, counterexample: a non-comment, non-empty line with more than 4
colon-separated fields is claimed to always be accepted into the successful
result. The line X:::r:extra has 5 fields, yet the decode crashes on its
invalid type character instead of accepting it. -/
theorem extra_fields_line_still_crashes :
    (splitOnColon ("X:::r:extra".toList)).length = 5
      ∧ ("X:::r:extra".toList ≠ [] ∧ ("X:::r:extra".toList).head? ≠ some '#')
      ∧ parseAcl ["X:::r:extra"] = ParseOutcome.crashed := by decide

/-- Claim C9, amended: a non-comment, non-empty line with more than 4
colon-separated fields is not rejected for the extra fields: the Ace is
built from the first four fields exactly as if the extras were absent, and
whenever the first field is nonempty with a trailing type letter among
A, D, U, L, the line is accepted with that Ace. -/
theorem extra_fields_ignored (line : String) (f0 f1 f2 f3 : List Char)
    (partsRest : List (List Char)) (tc : Char) (ty : AceType)
    (h0 : line.toList ≠ []) (h1 : line.toList.head? ≠ some '#')
    (hsplit : splitOnColon line.toList = f0 :: f1 :: f2 :: f3 :: partsRest)
    (_hextra : partsRest ≠ [])
    (hlast : f0.getLast? = some tc) (hty : charToAceType tc = some ty) :
    decodeLineCh line.toList = LineResult.entry
      { ace_type := ty
        ace_flags := decodeBitsLoop charFlag 0 f1
        ace_principals := String.mk f2
        ace_permissions := decodeBitsLoop charPerm 0 f3 } := by
  rw [decodeLineCh, if_neg h0, if_neg h1, hsplit]
  simp only [decodeParts, List.headD_cons, hlast, List.get?_cons_succ,
    List.get?_cons_zero, hty]

/-- Witness for claim C9: the 5-field line A:g:7:r:x is accepted and decodes
to the Ace of its first four fields. -/
theorem extra_fields_ignored_witness :
    decodeLineCh ("A:g:7:r:x".toList) = LineResult.entry
      { ace_type := AceType.Allow
        ace_flags := decodeBitsLoop charFlag 0 ['g']
        ace_principals := String.mk ['7']
        ace_permissions := decodeBitsLoop charPerm 0 ['r'] } :=
  extra_fields_ignored "A:g:7:r:x" ['A'] ['g'] ['7'] ['r'] [['x']] 'A' AceType.Allow
    (by decide) (by decide) (by decide) (by decide) (by decide) (by decide)

/-- Claim C10: every non-comment, non-empty line whose first colon-separated
field is the empty string makes the decode panic - the unwrap of the missing
last character - rather than return a result, so the decode is not total on
its text input. -/
theorem empty_first_field_crashes (line : String)
    (h0 : line.toList ≠ []) (h1 : line.toList.head? ≠ some '#')
    (hfield : (splitOnColon line.toList).headD [] = []) :
    decodeLineCh line.toList = LineResult.crash
      ∧ parseAcl [line] = ParseOutcome.crashed := by
  have hline : decodeLineCh line.toList = LineResult.crash := by
    rw [decodeLineCh, if_neg h0, if_neg h1]
    simp only [decodeParts, hfield, List.getLast?_nil]
  refine ⟨hline, ?_⟩
  simp only [parseAcl, List.map_cons, List.map_nil, parseLinesCh, hline]

/-- Witness for claim C10: the line with an empty first field crashes the
decode. -/
theorem empty_first_field_crashes_witness :
    decodeLineCh (":g:u:r".toList) = LineResult.crash
      ∧ parseAcl [":g:u:r"] = ParseOutcome.crashed :=
  empty_first_field_crashes ":g:u:r" (by decide) (by decide) (by decide)
